import Mathlib

/-!
Verification of the 0g-data-avail disperser core against its specification.

The development shallowly embeds the Go sources: byte strings are `List Nat`
(each element a byte value), Go strings are their UTF-8 byte lists, machine
integers are `Nat`/`Int`, durations are `Int` nanoseconds, and the float
arithmetic of the rate limiter is modelled over `ℚ`.  Stores (S3 objects,
DynamoDB metadata, the storage-cluster KV) are association lists, and
fallible Go code returns `Except`/`Option`.
-/

namespace ZgDA

/-! ## SHA-256 (crypto/sha256), over byte lists -/

/-- Truncate to a 32-bit word. -/
def w32 (x : Nat) : Nat := x % 4294967296

/-- 32-bit modular addition. -/
def add32 (a b : Nat) : Nat := (a + b) % 4294967296

/-- Rotate a 32-bit word right by `n`. -/
def rotr32 (n x : Nat) : Nat := x / 2 ^ n + x % 2 ^ n * 2 ^ (32 - n)

/-- Logical right shift of a 32-bit word. -/
def shr32 (n x : Nat) : Nat := x / 2 ^ n

/-- Bitwise complement of a 32-bit word. -/
def not32 (x : Nat) : Nat := Nat.xor x 4294967295

/-- The SHA-256 choice function. -/
def shaCh (x y z : Nat) : Nat := Nat.xor (Nat.land x y) (Nat.land (not32 x) z)

/-- The SHA-256 majority function. -/
def shaMaj (x y z : Nat) : Nat :=
  Nat.xor (Nat.land x y) (Nat.xor (Nat.land x z) (Nat.land y z))

/-- SHA-256 `Σ₀`. -/
def bigSigma0 (x : Nat) : Nat := Nat.xor (rotr32 2 x) (Nat.xor (rotr32 13 x) (rotr32 22 x))

/-- SHA-256 `Σ₁`. -/
def bigSigma1 (x : Nat) : Nat := Nat.xor (rotr32 6 x) (Nat.xor (rotr32 11 x) (rotr32 25 x))

/-- SHA-256 `σ₀`. -/
def smallSigma0 (x : Nat) : Nat := Nat.xor (rotr32 7 x) (Nat.xor (rotr32 18 x) (shr32 3 x))

/-- SHA-256 `σ₁`. -/
def smallSigma1 (x : Nat) : Nat := Nat.xor (rotr32 17 x) (Nat.xor (rotr32 19 x) (shr32 10 x))

/-- The eight 32-bit words of SHA-256 chaining state. -/
structure Sha256State where
  h0 : Nat
  h1 : Nat
  h2 : Nat
  h3 : Nat
  h4 : Nat
  h5 : Nat
  h6 : Nat
  h7 : Nat

/-- SHA-256 initial hash value (FIPS 180-4), in decimal. -/
def sha256InitState : Sha256State :=
  ⟨1779033703, 3144134277, 1013904242, 2773480762,
   1359893119, 2600822924, 528734635, 1541459225⟩

/-- SHA-256 round constants (FIPS 180-4), in decimal. -/
def sha256K : List Nat :=
  [1116352408, 1899447441, 3049323471, 3921009573, 961987163, 1508970993,
   2453635748, 2870763221, 3624381080, 310598401, 607225278, 1426881987,
   1925078388, 2162078206, 2614888103, 3248222580, 3835390401, 4022224774,
   264347078, 604807628, 770255983, 1249150122, 1555081692, 1996064986,
   2554220882, 2821834349, 2952996808, 3210313671, 3336571891, 3584528711,
   113926993, 338241895, 666307205, 773529912, 1294757372, 1396182291,
   1695183700, 1986661051, 2177026350, 2456956037, 2730485921, 2820302411,
   3259730800, 3345764771, 3516065817, 3600352804, 4094571909, 275423344,
   430227734, 506948616, 659060556, 883997877, 958139571, 1322822218,
   1537002063, 1747873779, 1955562222, 2024104815, 2227730452, 2361852424,
   2428436474, 2756734187, 3204031479, 3329325298]

/-- Big-endian serialization of `v` into `n` bytes. -/
def beBytes : Nat → Nat → List Nat
  | 0, _ => []
  | k + 1, v => beBytes k (v / 256) ++ [v % 256]

/-- Group four big-endian bytes into one 32-bit word, dropping a ragged tail. -/
def toWords : List Nat → List Nat
  | a :: b :: c :: d :: rest => (((a * 256 + b) * 256 + c) * 256 + d) :: toWords rest
  | _ => []

/-- One message-schedule extension step: append `W[t]` computed from the last
sixteen schedule words. -/
def extendStep (w : List Nat) : List Nat :=
  w ++ [add32 (add32 (smallSigma1 (w.getD (w.length - 2) 0)) (w.getD (w.length - 7) 0))
          (add32 (smallSigma0 (w.getD (w.length - 15) 0)) (w.getD (w.length - 16) 0))]

/-- Iterate the schedule extension. -/
def extendIter : Nat → List Nat → List Nat
  | 0, w => w
  | n + 1, w => extendIter n (extendStep w)

/-- One SHA-256 compression round, consuming a paired round constant and
schedule word. -/
def compressRound (s : Sha256State) (kw : Nat × Nat) : Sha256State :=
  let t1 := add32 s.h7 (add32 (bigSigma1 s.h4) (add32 (shaCh s.h4 s.h5 s.h6) (add32 kw.1 kw.2)))
  let t2 := add32 (bigSigma0 s.h0) (shaMaj s.h0 s.h1 s.h2)
  ⟨add32 t1 t2, s.h0, s.h1, s.h2, add32 s.h3 t1, s.h4, s.h5, s.h6⟩

/-- Compress one 64-byte block into the chaining state. -/
def compressBlock (s : Sha256State) (block : List Nat) : Sha256State :=
  let ws := extendIter 48 (toWords block)
  let t := (sha256K.zip ws).foldl compressRound s
  ⟨add32 s.h0 t.h0, add32 s.h1 t.h1, add32 s.h2 t.h2, add32 s.h3 t.h3,
   add32 s.h4 t.h4, add32 s.h5 t.h5, add32 s.h6 t.h6, add32 s.h7 t.h7⟩

/-- SHA-256 padding: `0x80`, zeros to 56 mod 64, then the bit length as eight
big-endian bytes. -/
def sha256Pad (msg : List Nat) : List Nat :=
  msg ++ 128 :: List.replicate ((64 - (msg.length + 9) % 64) % 64) 0 ++ beBytes 8 (8 * msg.length)

/-- Split a byte list into 64-byte blocks. -/
def toBlocks (l : List Nat) : List (List Nat) :=
  if h : l = [] then [] else l.take 64 :: toBlocks (l.drop 64)
termination_by l.length
decreasing_by
  simp only [List.length_drop]
  exact Nat.sub_lt (List.length_pos.mpr h) (by decide)

/-- Big-endian bytes of one state word. -/
def wordBytes (w : Nat) : List Nat := [w / 16777216 % 256, w / 65536 % 256, w / 256 % 256, w % 256]

/-- Serialize the chaining state to the 32 digest bytes. -/
def digestBytes (s : Sha256State) : List Nat :=
  wordBytes s.h0 ++ wordBytes s.h1 ++ wordBytes s.h2 ++ wordBytes s.h3 ++
  wordBytes s.h4 ++ wordBytes s.h5 ++ wordBytes s.h6 ++ wordBytes s.h7

/-- SHA-256 of a byte list. -/
def sha256 (msg : List Nat) : List Nat :=
  digestBytes ((toBlocks (sha256Pad msg)).foldl compressBlock sha256InitState)

theorem sha256_length (msg : List Nat) : (sha256 msg).length = 32 := by
  simp [sha256, digestBytes, wordBytes]

/-! ## Keccak-256 (golang.org/x/crypto/sha3, legacy 0x01 padding), over byte lists -/

/-- The all-ones 64-bit mask. -/
def w64mask : Nat := 18446744073709551615

/-- Bitwise complement of a 64-bit word. -/
def not64 (x : Nat) : Nat := Nat.xor x w64mask

/-- Rotate a 64-bit word left by `n` (for `n ≤ 64`). -/
def rotl64 (n x : Nat) : Nat := x % 2 ^ (64 - n) * 2 ^ n + x / 2 ^ (64 - n)

/-- Keccak lane index for coordinates `(x, y)`. -/
def laneIdx (x y : Nat) : Nat := x % 5 + 5 * (y % 5)

/-- Keccak-f[1600] round constants, in decimal. -/
def keccakRC : List Nat :=
  [1, 32898, 9223372036854808714, 9223372039002292224,
   32907, 2147483649, 9223372039002292353, 9223372036854808585,
   138, 136, 2147516425, 2147483658,
   2147516555, 9223372036854775947, 9223372036854808713, 9223372036854808579,
   9223372036854808578, 9223372036854775936, 32778, 9223372039002259466,
   9223372039002292353, 9223372036854808704, 2147483649, 9223372039002292232]

/-- Keccak rotation offset of the lane at index `x + 5 * y`. -/
def keccakRot (i : Nat) : Nat :=
  match i with
  | 0 => 0
  | 1 => 1
  | 2 => 62
  | 3 => 28
  | 4 => 27
  | 5 => 36
  | 6 => 44
  | 7 => 6
  | 8 => 55
  | 9 => 20
  | 10 => 3
  | 11 => 10
  | 12 => 43
  | 13 => 25
  | 14 => 39
  | 15 => 41
  | 16 => 45
  | 17 => 15
  | 18 => 21
  | 19 => 8
  | 20 => 18
  | 21 => 2
  | 22 => 61
  | 23 => 56
  | 24 => 14
  | _ => 0

/-- One Keccak-f round: θ, ρ, π, χ, ι. -/
def keccakRound (s : List Nat) (rc : Nat) : List Nat :=
  let c := fun x => Nat.xor (s.getD (laneIdx x 0) 0) (Nat.xor (s.getD (laneIdx x 1) 0)
    (Nat.xor (s.getD (laneIdx x 2) 0) (Nat.xor (s.getD (laneIdx x 3) 0) (s.getD (laneIdx x 4) 0))))
  let d := fun x => Nat.xor (c ((x + 4) % 5)) (rotl64 1 (c ((x + 1) % 5)))
  let s1 := List.ofFn fun i : Fin 25 => Nat.xor (s.getD i.val 0) (d (i.val % 5))
  let s2 := (List.range 25).foldl
    (fun acc i =>
      let x := i % 5
      let y := i / 5
      acc.set (laneIdx y (2 * x + 3 * y)) (rotl64 (keccakRot i) (s1.getD i 0)))
    (List.replicate 25 0)
  let s3 := List.ofFn fun i : Fin 25 =>
    let x := i.val % 5
    let y := i.val / 5
    Nat.xor (s2.getD i.val 0)
      (Nat.land (not64 (s2.getD (laneIdx (x + 1) y) 0)) (s2.getD (laneIdx (x + 2) y) 0))
  s3.set 0 (Nat.xor (s3.getD 0 0) rc)

/-- The Keccak-f[1600] permutation: 24 rounds. -/
def keccakF (s : List Nat) : List Nat := keccakRC.foldl keccakRound s

/-- Multi-rate padding with the legacy Keccak domain byte `0x01`. -/
def keccakPad (msg : List Nat) : List Nat :=
  let k := 136 - msg.length % 136
  msg ++ (if k = 1 then [0x81] else 0x01 :: (List.replicate (k - 2) 0 ++ [0x80]))

/-- Split a byte list into 136-byte rate blocks. -/
def toBlocks136 (l : List Nat) : List (List Nat) :=
  if h : l = [] then [] else l.take 136 :: toBlocks136 (l.drop 136)
termination_by l.length
decreasing_by
  simp only [List.length_drop]
  exact Nat.sub_lt (List.length_pos.mpr h) (by decide)

/-- Read a little-endian 64-bit lane from a byte list. -/
def leWord (bytes : List Nat) : Nat := bytes.foldr (fun b acc => b + 256 * acc) 0

/-- XOR one 136-byte block into the state and permute. -/
def keccakAbsorb (s : List Nat) (block : List Nat) : List Nat :=
  keccakF (List.ofFn fun i : Fin 25 =>
    if i.val < 17 then Nat.xor (s.getD i.val 0) (leWord ((block.drop (8 * i.val)).take 8))
    else s.getD i.val 0)

/-- Little-endian serialization of `v` into `n` bytes. -/
def leBytes : Nat → Nat → List Nat
  | 0, _ => []
  | k + 1, v => v % 256 :: leBytes k (v / 256)

/-- Keccak-256 of a byte list (original Keccak padding, as produced by
`sha3.NewLegacyKeccak256`). -/
def keccak256 (msg : List Nat) : List Nat :=
  let s := (toBlocks136 (keccakPad msg)).foldl keccakAbsorb (List.replicate 25 0)
  leBytes 8 (s.getD 0 0) ++ leBytes 8 (s.getD 1 0) ++ leBytes 8 (s.getD 2 0) ++ leBytes 8 (s.getD 3 0)

theorem sha256_lt (msg : List Nat) : ∀ b ∈ sha256 msg, b < 256 := by
  intro b hb
  simp only [sha256, digestBytes, wordBytes, List.mem_append, List.mem_cons,
    List.not_mem_nil, or_false] at hb
  omega

/-! ## Hex and decimal encodings (encoding/hex, fmt "%d"), over byte lists -/

/-- The ASCII code of a lowercase hex digit. -/
def hexDigit (d : Nat) : Nat := if d < 10 then 48 + d else 87 + d

/-- The two hex-digit ASCII codes of one byte. -/
def hexByte (b : Nat) : List Nat := [hexDigit (b / 16), hexDigit (b % 16)]

/-- `hex.EncodeToString`: the lowercase hex string (as UTF-8 bytes) of a byte
list. -/
def hexEncode (l : List Nat) : List Nat := l.flatMap hexByte

/-- Little-endian base-10 digits, with explicit fuel so the kernel can
evaluate it. -/
def decDigitsAux : Nat → Nat → List Nat
  | 0, _ => []
  | fuel + 1, n => if n = 0 then [] else n % 10 :: decDigitsAux fuel (n / 10)

/-- Little-endian base-10 digits of `n`. -/
def decDigits (n : Nat) : List Nat := decDigitsAux n n

/-- The ASCII decimal representation (as UTF-8 bytes) of a natural number,
matching `fmt.Sprintf "%d"`. -/
def decBytes (n : Nat) : List Nat :=
  if n = 0 then [48] else (decDigits n).reverse.map (fun d => 48 + d)

/-! ## Core data model (core package) -/

/-- `core.SecurityParam`: quorum ID and thresholds (uint8 fields as `Nat`). -/
structure SecurityParam where
  quorumID : Nat
  adversaryThreshold : Nat
  quorumThreshold : Nat
deriving DecidableEq

/-- `core.BlobRequestHeader`. -/
structure BlobRequestHeader where
  securityParams : List SecurityParam
  targetRowNum : Nat
deriving DecidableEq

/-- `core.Blob`: a request header plus the raw data bytes. -/
structure Blob where
  requestHeader : BlobRequestHeader
  data : List Nat
deriving DecidableEq

/-! ## Blob hashing (disperser/common/blobstore shared_storage) -/

/-- A Go `hash.Hash` state for SHA-256: the bytes written so far. -/
structure GoSha256 where
  written : List Nat

/-- `sha256.New()`: a fresh hash state with nothing written. -/
def goSha256New : GoSha256 := ⟨[]⟩

/-- Go `Hash.Write`: append data to the hash state. -/
def GoSha256.writeBytes (s : GoSha256) (data : List Nat) : GoSha256 := ⟨s.written ++ data⟩

/-- Go `Hash.Sum(b)`: append the digest of the written data to `b` and return
the result. -/
def GoSha256.sum (s : GoSha256) (b : List Nat) : List Nat := b ++ sha256 s.written

/-- `getBlobHash`: hex of the SHA-256 digest of the blob data. -/
def getBlobHash (blob : Blob) : List Nat :=
  hexEncode ((goSha256New.writeBytes blob.data).sum [])

/-- The metadata prefix string built by `getMetadataHash`:
`"<requestedAt>/"` then `"<QuorumID>/<AdversaryThreshold>/"` per param
(as UTF-8 bytes; 47 is the slash). -/
def metadataStr (requestedAt : Nat) (params : List SecurityParam) : List Nat :=
  params.foldl
    (fun s p => s ++ (decBytes p.quorumID ++ [47] ++ (decBytes p.adversaryThreshold ++ [47])))
    (decBytes requestedAt ++ [47])

/-- `getMetadataHash`: hex of `sha256.New().Sum(bytes)` over the prefix bytes.
Note Go's `Sum` appends the digest of the (empty) written data to its
argument, so this hex-encodes the prefix bytes followed by the SHA-256 digest
of the empty message. -/
def getMetadataHash (requestedAt : Nat) (params : List SecurityParam) : List Nat :=
  hexEncode (goSha256New.sum (metadataStr requestedAt params))

/-- The spec's reading of the metadata hash (spec §3): the hex encoding of
`sha256(str)` itself. Stated for comparison with `getMetadataHash`. -/
def specMetadataHash (requestedAt : Nat) (params : List SecurityParam) : List Nat :=
  hexEncode (sha256 (metadataStr requestedAt params))

/-- `disperser.BlobKey`: the pair of hex hash strings. -/
structure BlobKey where
  blobHash : List Nat
  metadataHash : List Nat
deriving DecidableEq

/-- Modelled from the spec: `BlobKey.String()` (the `disperser` package that
defines it is not under src/) — the printable form
`BlobHash + "-" + MetadataHash` (45 is the dash). -/
def BlobKey.printable (k : BlobKey) : List Nat := k.blobHash ++ 45 :: k.metadataHash

/-! ## Batch-header serialization (core/serialization.go) -/

/-- `core.BatchHeader`: the batch Merkle root (32 bytes) and the reference
block number. -/
structure BatchHeader where
  batchRoot : List Nat
  referenceBlockNumber : Nat
deriving DecidableEq

/-- ABI encoding of the tuple `(bytes32 blobHeadersRoot, uint32
referenceBlockNumber)`: the 32 root bytes followed by the uint32 left-padded
to 32 bytes. -/
def abiEncodeReducedBatchHeader (root : List Nat) (refBlockNum : Nat) : List Nat :=
  root ++ beBytes 32 refBlockNum

/-- `BatchHeader.Encode`: ABI-encodes the reduced header; the source
hard-codes `ReferenceBlockNumber: 0`. -/
def BatchHeader.encode (h : BatchHeader) : List Nat :=
  abiEncodeReducedBatchHeader h.batchRoot 0

/-- `BatchHeader.GetBatchHeaderHash`: keccak-256 of the encoded reduced
header. -/
def getBatchHeaderHash (h : BatchHeader) : List Nat := keccak256 h.encode

/-! ## Association-list stores -/

/-- Point lookup in an association list. -/
def alookup {K V : Type} [DecidableEq K] : List (K × V) → K → Option V
  | [], _ => none
  | (k', v) :: rest, k => if k' = k then some v else alookup rest k

/-- Apply `f` to the value stored under `k`, leaving other entries alone. -/
def aupdate {K V : Type} [DecidableEq K] (t : List (K × V)) (k : K) (f : V → V) : List (K × V) :=
  t.map (fun p => if p.1 = k then (p.1, f p.2) else p)

/-- Write `v` under `k`: replace the existing entry or append a new one. -/
def aset {K V : Type} [DecidableEq K] : List (K × V) → K → V → List (K × V)
  | [], k, v => [(k, v)]
  | (k', v') :: rest, k, v => if k' = k then (k, v) :: rest else (k', v') :: aset rest k v

/-! ## Blob metadata and the shared blob store (disperser/common/blobstore) -/

/-- `disperser.BlobStatus`. -/
inductive BlobStatus
  | processing
  | confirmed
  | failed
  | finalized
  | insufficientSignatures
deriving DecidableEq

/-- `disperser.ConfirmationInfo` (the fields the verified claims touch). -/
structure ConfirmationInfo where
  batchID : Nat
  blobIndex : Nat
  referenceBlockNumber : Nat
  confirmationBlockNumber : Nat
deriving DecidableEq

/-- `disperser.RequestMetadata`. -/
structure RequestMetadata where
  blobRequestHeader : BlobRequestHeader
  blobSize : Nat
  requestedAt : Nat
deriving DecidableEq

/-- `disperser.BlobMetadata`. -/
structure BlobMetadata where
  blobHash : List Nat
  metadataHash : List Nat
  blobStatus : BlobStatus
  numRetries : Nat
  expiry : Nat
  requestMetadata : Option RequestMetadata
  confirmationInfo : Option ConfirmationInfo
deriving DecidableEq

/-- `BlobMetadata.GetBlobKey`. -/
def BlobMetadata.getBlobKey (m : BlobMetadata) : BlobKey := ⟨m.blobHash, m.metadataHash⟩

/-- The metadata index, keyed by `BlobKey`. -/
abbrev MetadataTable := List (BlobKey × BlobMetadata)

/-- Modelled from the spec: `BlobMetadataStore.IncrementNumRetries`
(blob_metadata_store.go is not under src/) — atomic increment of the
record's `NumRetries`. -/
def incrementNumRetries (t : MetadataTable) (k : BlobKey) : MetadataTable :=
  aupdate t k (fun m => { m with numRetries := m.numRetries + 1 })

/-- Modelled from the spec: `BlobMetadataStore.SetBlobStatus`
(blob_metadata_store.go is not under src/) — status-only update of the
record. -/
def setBlobStatus (t : MetadataTable) (k : BlobKey) (st : BlobStatus) : MetadataTable :=
  aupdate t k (fun m => { m with blobStatus := st })

/-- `SharedBlobStore.MarkBlobFailed`. -/
def markBlobFailed (t : MetadataTable) (k : BlobKey) : MetadataTable :=
  setBlobStatus t k .failed

/-- `SharedBlobStore.IncrementBlobRetryCount`. -/
def incrementBlobRetryCount (t : MetadataTable) (m : BlobMetadata) : MetadataTable :=
  incrementNumRetries t m.getBlobKey

/-- `SharedBlobStore.HandleBlobFailure`: retry while under the bound, mark
failed at it. -/
def handleBlobFailure (t : MetadataTable) (m : BlobMetadata) (maxRetry : Nat) : MetadataTable :=
  if m.numRetries < maxRetry then incrementBlobRetryCount t m
  else markBlobFailed t m.getBlobKey

/-- The shared blob store state: S3 objects plus the metadata table. -/
structure BlobStoreState where
  objects : List (List Nat × List Nat)
  metadata : MetadataTable
deriving DecidableEq

/-- `blobObjectKey`: `"blob/" + blobHash + ".json"` as bytes. -/
def blobObjectKey (blobHash : List Nat) : List Nat :=
  [98, 108, 111, 98, 47] ++ blobHash ++ [46, 106, 115, 111, 110]

/-- `SharedBlobStore.StoreBlob`: compute the key, upload the object (keyed by
metadata hash or by `blob/<hash>.json` depending on the mode flag), then queue
the metadata record with status Processing. -/
def storeBlob (mode : Bool) (ttl nowSec : Nat) (st : BlobStoreState) (blob : Blob)
    (requestedAt : Nat) : BlobKey × BlobStoreState :=
  let blobHash := getBlobHash blob
  let metadataHash := getMetadataHash requestedAt blob.requestHeader.securityParams
  let key : BlobKey := ⟨blobHash, metadataHash⟩
  let objKey := if mode then metadataHash else blobObjectKey blobHash
  let expiry := if ttl > 0 then nowSec + ttl else 0
  let meta : BlobMetadata :=
    ⟨blobHash, metadataHash, .processing, 0, expiry,
      some ⟨blob.requestHeader, blob.data.length, requestedAt⟩, none⟩
  (key, ⟨aset st.objects objKey blob.data, (key, meta) :: st.metadata⟩)

/-! ## Dispersal server (disperser/apiserver) -/

/-- The protobuf `BlobStatus` values. -/
inductive PbBlobStatus
  | unknown
  | processing
  | confirmed
  | failed
  | finalized
  | insufficientSignatures
deriving DecidableEq

/-- `getResponseStatus`. -/
def getResponseStatus : BlobStatus → PbBlobStatus
  | .processing => .processing
  | .confirmed => .confirmed
  | .failed => .failed
  | .finalized => .finalized
  | .insufficientSignatures => .insufficientSignatures

/-- The protobuf `SecurityParams` entry (uint32 fields). -/
structure PbSecurityParam where
  quorumId : Nat
  adversaryThreshold : Nat
  quorumThreshold : Nat
deriving DecidableEq

/-- The protobuf `DisperseBlobRequest`. -/
structure DisperseBlobRequest where
  data : List Nat
  securityParams : List PbSecurityParam
  targetRowNum : Nat
deriving DecidableEq

/-- The protobuf `DisperseBlobReply`. -/
structure DisperseBlobReply where
  result : PbBlobStatus
  requestId : List Nat
deriving DecidableEq

/-- Errors the embedded handlers surface. -/
inductive ServerError
  | blobSizeTooLarge
  | blobSizeZero
  | emptyRequestID
  | invalidKey
  | notFound
  | nilDeref
deriving DecidableEq

/-- `getBlobFromRequest`: narrow the uint32 wire fields to uint8 core fields
(Go conversions truncate mod 256). -/
def getBlobFromRequest (req : DisperseBlobRequest) : Blob :=
  ⟨⟨req.securityParams.map
      (fun p => ⟨p.quorumId % 256, p.adversaryThreshold % 256, p.quorumThreshold % 256⟩),
    req.targetRowNum⟩, req.data⟩

/-- `DispersalServer.DisperseBlob`: size admission, then store; metrics,
logging and client-address extraction are effect-free here (the address
lookup is modelled as always succeeding). -/
def disperseBlob (maxBlobSize : Nat) (mode : Bool) (ttl nowSec : Nat) (st : BlobStoreState)
    (req : DisperseBlobRequest) (requestedAt : Nat) :
    Except ServerError (DisperseBlobReply × BlobStoreState) :=
  let blobSize := req.data.length
  if blobSize > maxBlobSize then .error .blobSizeTooLarge
  else if blobSize = 0 then .error .blobSizeZero
  else
    let blob := getBlobFromRequest req
    let ks := storeBlob mode ttl nowSec st blob requestedAt
    .ok (⟨.processing, ks.1.printable⟩, ks.2)

/-- Split a byte string at its first dash (45). -/
def breakAtDash : List Nat → Option (List Nat × List Nat)
  | [] => none
  | b :: rest =>
    if b = 45 then some ([], rest)
    else (breakAtDash rest).map (fun p => (b :: p.1, p.2))

/-- Modelled from the spec: `disperser.ParseBlobKey` (not under src/) — split
the printable form at the dash back into the two hash strings. -/
def parseBlobKey (s : List Nat) : Except ServerError BlobKey :=
  match breakAtDash s with
  | some (a, b) => .ok ⟨a, b⟩
  | none => .error .invalidKey

/-- Modelled from the spec: `BlobMetadata.IsConfirmed` (not under src/) —
whether the reply carries the full confirmation proof: the status is
Confirmed or Finalized. -/
def BlobMetadata.isConfirmed (m : BlobMetadata) : Bool :=
  decide (m.blobStatus = .confirmed) || decide (m.blobStatus = .finalized)

/-- The status reply, with the confirmation proof abstracted to a presence
flag (the verified claims concern the status field). -/
structure BlobStatusReply where
  status : PbBlobStatus
  hasFullInfo : Bool
deriving DecidableEq

/-- Build the `BlobStatusReply` for a metadata record: full confirmation info
when confirmed (dereferencing `ConfirmationInfo`), status-only otherwise. -/
def buildStatusReply (m : BlobMetadata) : Except ServerError BlobStatusReply :=
  if m.isConfirmed then
    match m.confirmationInfo with
    | some _ => .ok ⟨getResponseStatus m.blobStatus, true⟩
    | none => .error .nilDeref
  else .ok ⟨getResponseStatus m.blobStatus, false⟩

/-- The zero `BlobMetadata` value. -/
def emptyBlobMetadata : BlobMetadata := ⟨[], [], .processing, 0, 0, none, none⟩

/-- `getMetadataFromKv`: KV errors, empty values and deserialization failures
all surface as a miss (the caller only logs them). -/
def getMetadataFromKv (kv : List (List Nat × BlobMetadata)) (key : List Nat) :
    Option BlobMetadata :=
  alookup kv key

/-- The KV fallback block of `GetBlobStatus`: on a KV hit, dereference the
record's `ConfirmationInfo` (a nil pointer faults) and upgrade the status to
Finalized when its confirmation block is final; on a miss, reply with a
Processing stub. -/
def kvFallback (kv : List (List Nat × BlobMetadata)) (lfb : Nat) (requestID : List Nat) :
    Except ServerError BlobStatusReply :=
  match getMetadataFromKv kv requestID with
  | some kvMeta =>
    match kvMeta.confirmationInfo with
    | none => .error .nilDeref
    | some ci =>
      buildStatusReply
        (if ci.confirmationBlockNumber ≤ lfb then { kvMeta with blobStatus := BlobStatus.finalized }
         else kvMeta)
  | none => buildStatusReply { emptyBlobMetadata with blobStatus := BlobStatus.processing }

/-- `DispersalServer.GetBlobStatus`: parse the request ID, point-lookup the
primary metadata store, fall back to the storage cluster's KV when the mode
flag is set and the primary misses or mismatches. -/
def getBlobStatus (mode : Bool) (primary : MetadataTable)
    (kv : List (List Nat × BlobMetadata)) (lfb : Nat) (requestID : List Nat) :
    Except ServerError BlobStatusReply :=
  if requestID = [] then .error .emptyRequestID
  else
    match parseBlobKey requestID with
    | .error e => .error e
    | .ok metadataKey =>
      match alookup primary metadataKey with
      | none => if mode then kvFallback kv lfb requestID else .error .notFound
      | some m0 =>
        if mode && !decide (m0.getBlobKey.printable = requestID) then kvFallback kv lfb requestID
        else buildStatusReply m0

/-! ## Rate limiter (common/ratelimit/limiter.go) -/

/-- `common.GlobalRateParams`: bucket sizes (durations as `Int` nanoseconds),
multipliers (configured values as `ℚ`, rounded to their float32 where the
deduction uses them — the source stores `[]float32`), and the count-failed
policy bit. -/
structure GlobalRateParams where
  bucketSizes : List Int
  multipliers : List ℚ
  countFailed : Bool

/-- `common.RateBucketParams`. -/
structure RateBucketParams where
  bucketLevels : List Int
  lastRequestTime : Int
deriving DecidableEq

/-- The bucket store, keyed by requester ID. -/
abbrev BucketStore := List (List Nat × RateBucketParams)

/-- The bucket-store operations `AllowRequest` performs, in order. -/
inductive BucketOp
  | getItem (id : List Nat)
  | updateItem (id : List Nat)
deriving DecidableEq

/-- The result of `AllowRequest`: the verdict, the resulting store, and the
store operations performed. -/
structure AllowResult where
  allowed : Bool
  store : BucketStore
  ops : List BucketOp
deriving DecidableEq

/-- Fuel-based floor of the base-2 logarithm, so the kernel can evaluate
it. -/
def log2Fuel : Nat → Nat → Nat
  | 0, _ => 0
  | fuel + 1, n => if 2 ≤ n then log2Fuel fuel (n / 2) + 1 else 0

/-- Floor of the base-2 logarithm of a positive number. -/
def natLog2 (n : Nat) : Nat := log2Fuel n n

/-- Does `2 ^ g ≤ n / d` hold, for positive `n`, `d`? -/
def pow2LeRat (g : Int) (n d : Nat) : Bool :=
  if 0 ≤ g then d * 2 ^ g.toNat ≤ n else d ≤ n * 2 ^ (-g).toNat

/-- A nonnegative IEEE-754 binary32 value: a 24-bit significand `m` (zero, or
in `[2^23, 2^24)`) scaled by `2 ^ e`.  Exponents are unbounded: every value
the rate limiter computes lies far inside the normal float32 range, so
overflow, subnormals and infinities are out of the modelled range. -/
structure F32 where
  m : Nat
  e : Int
deriving DecidableEq

/-- Round the positive rational `n / d` to float32 precision: normalize the
significand into `[2^23, 2^24)` and round to nearest, ties to even. -/
def roundPosRat (n d : Nat) : F32 :=
  let f : Int := (natLog2 n : Int) - (natLog2 d : Int)
  let g : Int := if pow2LeRat f n d then f else f - 1
  let e0 : Int := g - 23
  let nd : Nat × Nat := if 0 ≤ e0 then (n, d * 2 ^ e0.toNat) else (n * 2 ^ (-e0).toNat, d)
  let q := nd.1 / nd.2
  let r := nd.1 % nd.2
  let s :=
    if 2 * r < nd.2 then q
    else if nd.2 < 2 * r then q + 1
    else if q % 2 = 0 then q else q + 1
  if s = 2 ^ 24 then ⟨2 ^ 23, e0 + 1⟩ else ⟨s, e0⟩

/-- The Go `float32(n)` conversion of an unsigned integer. -/
def F32.ofNatV (n : Nat) : F32 := if n = 0 then ⟨0, 0⟩ else roundPosRat n 1

/-- float32 multiplication: the exact product, rounded. -/
def F32.mul (x y : F32) : F32 :=
  if x.m = 0 || y.m = 0 then ⟨0, 0⟩
  else
    let z := roundPosRat (x.m * y.m) 1
    ⟨z.m, z.e + x.e + y.e⟩

/-- float32 division: the exact quotient, rounded.  Division by zero, which
Go sends to infinity, is outside the modelled range and yields zero. -/
def F32.div (x y : F32) : F32 :=
  if x.m = 0 || y.m = 0 then ⟨0, 0⟩
  else
    let z := roundPosRat x.m y.m
    ⟨z.m, z.e + x.e - y.e⟩

/-- The float32 nearest to a configured multiplier value (the source stores
`Multipliers` as `[]float32`; nonpositive configs are outside the modelled
range and yield zero). -/
def f32OfQ (q : ℚ) : F32 :=
  if q.num ≤ 0 then ⟨0, 0⟩ else roundPosRat q.num.toNat q.den

/-- The Go `time.Duration(f)` conversion: truncation toward zero (toward
zero and floor agree on these nonnegative values). -/
def F32.trunc (x : F32) : Int :=
  if 0 ≤ x.e then (x.m : Int) * 2 ^ x.e.toNat else ((x.m / 2 ^ (-x.e).toNat : Nat) : Int)

/-- The per-tier bucket deduction:
`time.Microsecond * time.Duration(1e6 * float32(blobSize) / float32(rate) /
Multipliers[i])`, each float32 operation rounding its exact result to a
24-bit significand, nearest-even, exactly as IEEE-754 binary32 does (`1e6`
is exactly representable). -/
def deductionOf (blobSize rate : Nat) (mult : ℚ) : Int :=
  1000 * F32.trunc (F32.div (F32.div (F32.mul (F32.ofNatV 1000000) (F32.ofNatV blobSize))
    (F32.ofNatV rate)) (f32OfQ mult))

/-- `getBucketLevel`: add the refill interval, subtract the deduction, clamp
to `[0, bucketSize]` (zero first, then the cap, as the source does). -/
def getBucketLevel (bucketLevel bucketSize interval deduction : Int) : Int :=
  let newLevel := bucketLevel + interval - deduction
  let newLevel := if newLevel < 0 then 0 else newLevel
  if newLevel > bucketSize then bucketSize else newLevel

/-- The `AllowRequest` loop over tiers: update each level and conjoin the
positivity checks.  The mismatched-lengths case is unreachable under the
configuration invariant (Go would panic there). -/
def updateBuckets (blobSize rate : Nat) (interval : Int) :
    List Int → List ℚ → List Int → List Int × Bool
  | size :: sizes, mult :: mults, level :: levels =>
    let newLevel := getBucketLevel level size interval (deductionOf blobSize rate mult)
    let rest := updateBuckets blobSize rate interval sizes mults levels
    (newLevel :: rest.1, decide (0 < newLevel) && rest.2)
  | [], _, levels => (levels, true)
  | _ :: _, _, _ => ([], true)

/-- `strings.Contains`: does the haystack contain the needle as a contiguous
substring? -/
def hasSubstring : List Nat → List Nat → Bool
  | [], needle => needle.isEmpty
  | a :: rest, needle => needle.isPrefixOf (a :: rest) || hasSubstring rest needle

/-- The allowlist check: `strings.Contains(requesterID, id)` for any entry. -/
def isAllowlisted (allowlist : List (List Nat)) (requesterID : List Nat) : Bool :=
  allowlist.any (fun id => hasSubstring requesterID id)

/-- `rateLimiter.AllowRequest`: allowlist short-circuit; otherwise read the
bucket (a missing entry starts full), update the levels, and persist iff
allowed or `CountFailed`. -/
def allowRequest (params : GlobalRateParams) (allowlist : List (List Nat))
    (store : BucketStore) (requesterID : List Nat) (blobSize rate : Nat) (now : Int) :
    AllowResult :=
  if isAllowlisted allowlist requesterID then ⟨true, store, []⟩
  else
    let bucketParams :=
      match alookup store requesterID with
      | some p => p
      | none => ⟨params.bucketSizes, now⟩
    let interval := now - bucketParams.lastRequestTime
    let lv := updateBuckets blobSize rate interval
      params.bucketSizes params.multipliers bucketParams.bucketLevels
    let newParams : RateBucketParams := ⟨lv.1, now⟩
    if lv.2 || params.countFailed then
      ⟨lv.2, aset store requesterID newParams, [.getItem requesterID, .updateItem requesterID]⟩
    else ⟨lv.2, store, [.getItem requesterID]⟩

/-! ## Lemmas: hex and decimal encodings -/

theorem hexEncode_length (l : List Nat) : (hexEncode l).length = 2 * l.length := by
  induction l with
  | nil => rfl
  | cons b rest ih => simp [hexEncode, hexByte] at ih ⊢; omega

theorem hexDigit_inj {d₁ d₂ : Nat} (h₁ : d₁ < 16) (h₂ : d₂ < 16)
    (h : hexDigit d₁ = hexDigit d₂) : d₁ = d₂ := by
  unfold hexDigit at h
  split_ifs at h <;> omega

theorem hexByte_inj {b₁ b₂ : Nat} (h₁ : b₁ < 256) (h₂ : b₂ < 256)
    (h : hexByte b₁ = hexByte b₂) : b₁ = b₂ := by
  simp only [hexByte, List.cons.injEq, and_true] at h
  have e₁ : b₁ / 16 = b₂ / 16 := hexDigit_inj (by omega) (by omega) h.1
  have e₂ : b₁ % 16 = b₂ % 16 := hexDigit_inj (by omega) (by omega) h.2
  omega

theorem hexEncode_inj : ∀ l₁ l₂ : List Nat, (∀ b ∈ l₁, b < 256) → (∀ b ∈ l₂, b < 256) →
    hexEncode l₁ = hexEncode l₂ → l₁ = l₂
  | [], [], _, _, _ => rfl
  | [], b :: l, _, _, h => by simp [hexEncode, hexByte] at h
  | b :: l, [], _, _, h => by simp [hexEncode, hexByte] at h
  | b₁ :: l₁, b₂ :: l₂, hb₁, hb₂, h => by
    simp only [hexEncode, List.flatMap_cons, hexByte, List.cons_append, List.nil_append,
      List.cons.injEq] at h
    have hb : b₁ = b₂ := hexByte_inj (hb₁ b₁ (by simp)) (hb₂ b₂ (by simp))
      (by simp [hexByte, h.1, h.2.1])
    have ht : l₁ = l₂ := hexEncode_inj l₁ l₂ (fun b hb => hb₁ b (by simp [hb]))
      (fun b hb => hb₂ b (by simp [hb])) h.2.2
    rw [hb, ht]

/-- Read little-endian base-10 digits back into a number. -/
def parseDec (l : List Nat) : Nat := l.foldr (fun d acc => d + 10 * acc) 0

theorem parseDec_decDigitsAux : ∀ fuel n : Nat, n ≤ fuel → parseDec (decDigitsAux fuel n) = n
  | 0, n, h => by
    interval_cases n
    rfl
  | fuel + 1, n, h => by
    unfold decDigitsAux
    split
    · simp only [parseDec, List.foldr_nil]; omega
    · have hrec := parseDec_decDigitsAux fuel (n / 10) (by omega)
      simp only [parseDec, List.foldr_cons] at hrec ⊢
      omega

theorem decDigits_inj {m n : Nat} (h : decDigits m = decDigits n) : m = n := by
  have hm : parseDec (decDigits m) = m := parseDec_decDigitsAux m m (le_refl m)
  have hn : parseDec (decDigits n) = n := parseDec_decDigitsAux n n (le_refl n)
  rw [h, hn] at hm
  exact hm.symm

theorem decDigitsAux_lt : ∀ fuel n : Nat, ∀ d ∈ decDigitsAux fuel n, d < 10
  | 0, _, _, hd => by simp [decDigitsAux] at hd
  | fuel + 1, n, d, hd => by
    unfold decDigitsAux at hd
    split at hd
    · simp at hd
    · rcases List.mem_cons.mp hd with h' | h'
      · omega
      · exact decDigitsAux_lt fuel (n / 10) d h'

theorem decBytes_mem (n : Nat) : ∀ b ∈ decBytes n, 48 ≤ b ∧ b < 58 := by
  intro b hb
  unfold decBytes at hb
  split at hb
  · simp at hb; omega
  · simp only [List.mem_map, List.mem_reverse] at hb
    obtain ⟨d, hd, rfl⟩ := hb
    have : d < 10 := decDigitsAux_lt n n d hd
    omega

theorem map_add48_inj : ∀ l₁ l₂ : List Nat,
    l₁.map (fun d => 48 + d) = l₂.map (fun d => 48 + d) → l₁ = l₂
  | [], [], _ => rfl
  | [], _ :: _, h => by simp at h
  | _ :: _, [], h => by simp at h
  | a :: l₁, b :: l₂, h => by
    simp only [List.map_cons, List.cons.injEq] at h
    rw [show a = b by omega, map_add48_inj l₁ l₂ h.2]

theorem decDigits_eq_zero_list {n : Nat} (h : decDigits n = [0]) : n = 0 := by
  have := parseDec_decDigitsAux n n (le_refl n)
  rw [decDigits] at h
  rw [h] at this
  simpa [parseDec] using this.symm

theorem decBytes_inj {m n : Nat} (h : decBytes m = decBytes n) : m = n := by
  by_cases hm : m = 0 <;> by_cases hn : n = 0 <;> unfold decBytes at h <;>
    simp only [hm, hn, if_true, if_false, if_neg, if_pos, ite_true, ite_false] at h
  · omega
  · exfalso
    apply hn
    apply decDigits_eq_zero_list
    have := map_add48_inj [0] (decDigits n).reverse (by simpa using h)
    simpa [List.reverse_eq_iff] using this.symm
  · exfalso
    apply hm
    apply decDigits_eq_zero_list
    have := map_add48_inj [0] (decDigits m).reverse (by simpa using h.symm)
    simpa [List.reverse_eq_iff] using this.symm
  · have hd : decDigits m = decDigits n :=
      List.reverse_injective (map_add48_inj _ _ h)
    exact decDigits_inj hd

/-! ## Lemmas: slash-terminated token strings -/

/-- Join tokens, terminating each with a slash. -/
def joinTok (ts : List (List Nat)) : List Nat := ts.flatMap (fun t => t ++ [47])

/-- The `(QuorumID, AdversaryThreshold)` tokens of a security-parameter
list. -/
def qaToks (ps : List SecurityParam) : List (List Nat) :=
  ps.flatMap (fun p => [decBytes p.quorumID, decBytes p.adversaryThreshold])

/-- The fields of a security parameter that enter the metadata hash. -/
def qaPair (p : SecurityParam) : Nat × Nat := (p.quorumID, p.adversaryThreshold)

theorem foldl_append_flatMap {α : Type} (f : α → List Nat) :
    ∀ (l : List α) (a : List Nat), l.foldl (fun s p => s ++ f p) a = a ++ l.flatMap f
  | [], a => by simp
  | p :: l, a => by
    simp only [List.foldl_cons, List.flatMap_cons, foldl_append_flatMap f l, List.append_assoc]

theorem metadataStr_eq_joinTok (r : Nat) (ps : List SecurityParam) :
    metadataStr r ps = joinTok (decBytes r :: qaToks ps) := by
  unfold metadataStr
  rw [foldl_append_flatMap]
  simp only [joinTok, qaToks, List.flatMap_cons]
  induction ps with
  | nil => simp
  | cons p rest ih =>
    simp only [List.flatMap_cons, List.cons_append, List.nil_append] at ih ⊢
    simp only [List.append_assoc] at ih ⊢
    rw [List.append_right_inj, List.append_right_inj]
    simpa [List.append_assoc] using ih

theorem append_sep_inj : ∀ a b x y : List Nat, 47 ∉ a → 47 ∉ b →
    a ++ 47 :: x = b ++ 47 :: y → a = b ∧ x = y
  | [], [], x, y, _, _, h => by simpa using h
  | [], c :: cs, x, y, _, hb, h => by
    simp only [List.nil_append, List.cons_append, List.cons.injEq] at h
    exact absurd (h.1 ▸ List.mem_cons_self c cs) (by simpa [h.1] using hb)
  | c :: cs, [], x, y, ha, _, h => by
    simp only [List.nil_append, List.cons_append, List.cons.injEq] at h
    exact absurd (List.mem_cons_self c cs) (by simpa [h.1] using ha)
  | c :: cs, d :: ds, x, y, ha, hb, h => by
    simp only [List.cons_append, List.cons.injEq] at h
    obtain ⟨rfl, h2⟩ := h
    have := append_sep_inj cs ds x y (fun hc => ha (List.mem_cons_of_mem _ hc))
      (fun hc => hb (List.mem_cons_of_mem _ hc)) h2
    exact ⟨by rw [this.1], this.2⟩

theorem joinTok_inj : ∀ ts₁ ts₂ : List (List Nat), (∀ t ∈ ts₁, 47 ∉ t) → (∀ t ∈ ts₂, 47 ∉ t) →
    joinTok ts₁ = joinTok ts₂ → ts₁ = ts₂
  | [], [], _, _, _ => rfl
  | [], t :: ts, _, _, h => by simp [joinTok] at h
  | t :: ts, [], _, _, h => by simp [joinTok] at h
  | t₁ :: ts₁, t₂ :: ts₂, h₁, h₂, h => by
    simp only [joinTok, List.flatMap_cons, List.append_assoc, List.cons_append,
      List.nil_append] at h
    have hsep := append_sep_inj t₁ t₂ _ _ (h₁ t₁ (by simp)) (h₂ t₂ (by simp)) h
    have := joinTok_inj ts₁ ts₂ (fun t ht => h₁ t (by simp [ht])) (fun t ht => h₂ t (by simp [ht]))
      hsep.2
    rw [hsep.1, this]

theorem qaToks_inj : ∀ ps₁ ps₂ : List SecurityParam, qaToks ps₁ = qaToks ps₂ →
    ps₁.map qaPair = ps₂.map qaPair
  | [], [], _ => rfl
  | [], p :: ps, h => by simp [qaToks] at h
  | p :: ps, [], h => by simp [qaToks] at h
  | p₁ :: ps₁, p₂ :: ps₂, h => by
    simp only [qaToks, List.flatMap_cons, List.cons_append, List.nil_append,
      List.cons.injEq] at h
    obtain ⟨hq, ha, ht⟩ := h
    simp only [List.map_cons, List.cons.injEq]
    exact ⟨by simp [qaPair, decBytes_inj hq, decBytes_inj ha],
      qaToks_inj ps₁ ps₂ ht⟩

theorem decBytes_no_slash (n : Nat) : 47 ∉ decBytes n := by
  intro h
  have := decBytes_mem n 47 h
  omega

theorem metadataStr_inj {r₁ r₂ : Nat} {ps₁ ps₂ : List SecurityParam}
    (h : metadataStr r₁ ps₁ = metadataStr r₂ ps₂) :
    r₁ = r₂ ∧ ps₁.map qaPair = ps₂.map qaPair := by
  rw [metadataStr_eq_joinTok, metadataStr_eq_joinTok] at h
  have toksOk : ∀ ps : List SecurityParam, ∀ t ∈ qaToks ps, 47 ∉ t := by
    intro ps t ht
    simp only [qaToks, List.mem_flatMap, List.mem_cons, List.not_mem_nil, or_false] at ht
    obtain ⟨p, _, hp | hp⟩ := ht <;> rw [hp] <;> exact decBytes_no_slash _
  have := joinTok_inj _ _
    (by
      intro t ht
      rcases List.mem_cons.mp ht with h' | h'
      · rw [h']; exact decBytes_no_slash r₁
      · exact toksOk ps₁ t h')
    (by
      intro t ht
      rcases List.mem_cons.mp ht with h' | h'
      · rw [h']; exact decBytes_no_slash r₂
      · exact toksOk ps₂ t h')
    h
  simp only [List.cons.injEq] at this
  exact ⟨decBytes_inj this.1, qaToks_inj _ _ this.2⟩

theorem metadataStr_lt (r : Nat) (ps : List SecurityParam) :
    ∀ b ∈ metadataStr r ps, b < 256 := by
  intro b hb
  rw [metadataStr_eq_joinTok] at hb
  simp only [joinTok, List.mem_flatMap, List.mem_append, List.mem_cons,
    List.not_mem_nil, or_false] at hb
  obtain ⟨t, ht, hb | hb⟩ := hb
  · rcases ht with h' | h'
    · subst h'; have := decBytes_mem r b hb; omega
    · simp only [qaToks, List.mem_flatMap, List.mem_cons, List.not_mem_nil, or_false] at h'
      obtain ⟨p, _, hp | hp⟩ := h' <;> subst hp <;> · have := decBytes_mem _ b hb; omega
  · omega

/-! ## Lemmas: the ingested blob key -/

theorem getBlobHash_unfold (b : Blob) : getBlobHash b = hexEncode (sha256 b.data) := by
  simp [getBlobHash, GoSha256.sum, GoSha256.writeBytes, goSha256New]

theorem getMetadataHash_unfold (r : Nat) (ps : List SecurityParam) :
    getMetadataHash r ps = hexEncode (metadataStr r ps ++ sha256 []) := rfl

theorem getMetadataHash_inj {r₁ r₂ : Nat} {ps₁ ps₂ : List SecurityParam}
    (h : getMetadataHash r₁ ps₁ = getMetadataHash r₂ ps₂) :
    r₁ = r₂ ∧ ps₁.map qaPair = ps₂.map qaPair := by
  rw [getMetadataHash_unfold, getMetadataHash_unfold] at h
  have bound : ∀ (r : Nat) (ps : List SecurityParam), ∀ b ∈ metadataStr r ps ++ sha256 [],
      b < 256 := by
    intro r ps b hb
    rcases List.mem_append.mp hb with h' | h'
    · exact metadataStr_lt r ps b h'
    · exact sha256_lt [] b h'
  have hcat := hexEncode_inj _ _ (bound r₁ ps₁) (bound r₂ ps₂) h
  have hlen : (metadataStr r₁ ps₁).length = (metadataStr r₂ ps₂).length := by
    have := congrArg List.length hcat
    simp only [List.length_append] at this
    omega
  exact metadataStr_inj (List.append_inj hcat hlen).1

/-- The `BlobKey` that `StoreBlob` computes for a blob ingested at
`requestedAt`. -/
def ingestedBlobKey (blob : Blob) (requestedAt : Nat) : BlobKey :=
  ⟨getBlobHash blob, getMetadataHash requestedAt blob.requestHeader.securityParams⟩

theorem storeBlob_fst (mode : Bool) (ttl nowSec : Nat) (st : BlobStoreState) (blob : Blob)
    (requestedAt : Nat) : (storeBlob mode ttl nowSec st blob requestedAt).1 =
      ingestedBlobKey blob requestedAt := rfl

theorem printable_inj {k₁ k₂ : BlobKey} (hl : k₁.blobHash.length = k₂.blobHash.length)
    (h : k₁.printable = k₂.printable) : k₁ = k₂ := by
  obtain ⟨hh, ht⟩ := List.append_inj h hl
  cases k₁
  cases k₂
  simp only [List.cons.injEq, true_and] at ht
  simp_all [BlobKey.printable]

theorem getBlobHash_length (b : Blob) : (getBlobHash b).length = 64 := by
  rw [getBlobHash_unfold, hexEncode_length, sha256_length]

theorem ingestedBlobKey_inj {b₁ b₂ : Blob} {r₁ r₂ : Nat}
    (h : (ingestedBlobKey b₁ r₁).printable = (ingestedBlobKey b₂ r₂).printable) :
    sha256 b₁.data = sha256 b₂.data ∧ r₁ = r₂ ∧
      b₁.requestHeader.securityParams.map qaPair = b₂.requestHeader.securityParams.map qaPair := by
  have hk := printable_inj
    (by
      show (getBlobHash b₁).length = (getBlobHash b₂).length
      rw [getBlobHash_length, getBlobHash_length]) h
  have hbh : getBlobHash b₁ = getBlobHash b₂ := congrArg BlobKey.blobHash hk
  have hmh : getMetadataHash r₁ b₁.requestHeader.securityParams =
      getMetadataHash r₂ b₂.requestHeader.securityParams := congrArg BlobKey.metadataHash hk
  refine ⟨?_, getMetadataHash_inj hmh⟩
  rw [getBlobHash_unfold, getBlobHash_unfold] at hbh
  exact hexEncode_inj _ _ (sha256_lt b₁.data) (sha256_lt b₂.data) hbh

/-! ## Claims C1, C2, C5 -/

/-- C1: the claim — for every ingested blob the MetadataHash component of its
BlobKey equals the hex encoding of `sha256(str)` with
`str = "<requestedAtNs>/" ++ "<QuorumID>/<AdversaryThreshold>/"...` — fails on
the code: `getMetadataHash` hex-encodes `sha256.New().Sum(bytes)`, and Go's
`Sum` appends the digest of the (empty) written data to its argument, so the
two sides differ already in length at this concrete input. -/
theorem c1_metadata_hash_counterexample :
    getMetadataHash 0 [⟨1, 1, 1⟩] ≠ specMetadataHash 0 [⟨1, 1, 1⟩] := by
  intro h
  have hlen := congrArg List.length h
  rw [getMetadataHash_unfold] at hlen
  simp only [specMetadataHash, hexEncode_length, List.length_append, sha256_length] at hlen
  have h6 : (metadataStr 0 [⟨1, 1, 1⟩]).length = 6 := by decide
  omega

/-- C1 (amended): the MetadataHash component equals the hex encoding of the
prefix bytes `str` followed by the SHA-256 digest of the empty message
(`sha256.New().Sum(bytes)` appends the empty digest to `bytes`); its length is
therefore `2 * (len str + 32)`, not 64. -/
theorem c1_metadata_hash_construction (requestedAt : Nat) (params : List SecurityParam) :
    getMetadataHash requestedAt params =
        hexEncode (metadataStr requestedAt params ++ sha256 []) ∧
      (getMetadataHash requestedAt params).length =
        2 * ((metadataStr requestedAt params).length + 32) := by
  refine ⟨rfl, ?_⟩
  rw [getMetadataHash_unfold, hexEncode_length, List.length_append, sha256_length]

/-- C2: the claim — `BlobKey.String()` is injective over distinct
`(requestedAtNs, securityParams, data)` triples, including a security param's
QuorumThreshold — fails on the code: two ingestion inputs identical except for
a QuorumThreshold (2 versus 3 here) produce the same printable key, because
`getMetadataHash` never reads that field. -/
theorem c2_key_injectivity_counterexample :
    (Blob.mk (BlobRequestHeader.mk [⟨1, 2, 2⟩] 0) [7]) ≠
        (Blob.mk (BlobRequestHeader.mk [⟨1, 2, 3⟩] 0) [7]) ∧
      (ingestedBlobKey (Blob.mk (BlobRequestHeader.mk [⟨1, 2, 2⟩] 0) [7]) 5).printable =
        (ingestedBlobKey (Blob.mk (BlobRequestHeader.mk [⟨1, 2, 3⟩] 0) [7]) 5).printable := by
  constructor
  · intro h
    simp only [Blob.mk.injEq, BlobRequestHeader.mk.injEq, List.cons.injEq,
      SecurityParam.mk.injEq] at h
    omega
  · have hm : metadataStr 5 [⟨1, 2, 2⟩] = metadataStr 5 [⟨1, 2, 3⟩] := by decide
    simp only [ingestedBlobKey, BlobKey.printable, getBlobHash, getMetadataHash,
      GoSha256.sum, hm]

/-- C2 (amended): the printable BlobKey determines — and is determined by —
the SHA-256 digest of the data, the requestedAt timestamp, and the sequence of
`(QuorumID, AdversaryThreshold)` pairs; so keys differ whenever any of those
differ.  QuorumThreshold is not part of the key, and distinct data yield
distinct keys exactly when their SHA-256 digests differ. -/
theorem c2_key_injectivity (b₁ b₂ : Blob) (r₁ r₂ : Nat)
    (h : (ingestedBlobKey b₁ r₁).printable = (ingestedBlobKey b₂ r₂).printable) :
    sha256 b₁.data = sha256 b₂.data ∧ r₁ = r₂ ∧
      b₁.requestHeader.securityParams.map qaPair = b₂.requestHeader.securityParams.map qaPair :=
  ingestedBlobKey_inj h

/-- C2 witness: instantiating the amended theorem at a concrete pair of equal
ingestion inputs. -/
theorem c2_key_injectivity_witness :
    sha256 [3] = sha256 [3] ∧ (7 : Nat) = 7 ∧
      ([⟨1, 2, 3⟩] : List SecurityParam).map qaPair = [⟨1, 2, 3⟩].map qaPair :=
  c2_key_injectivity (Blob.mk (BlobRequestHeader.mk [⟨1, 2, 3⟩] 0) [3])
    (Blob.mk (BlobRequestHeader.mk [⟨1, 2, 3⟩] 0) [3]) 7 7 rfl

/-- C5: `GetBatchHeaderHash` is the keccak-256 of the ABI encoding of
`(bytes32 blobHeadersRoot = BatchRoot, uint32 referenceBlockNumber = 0)`, and
the hash is independent of the header's actual reference block number. -/
theorem c5_batch_header_hash (h : BatchHeader) :
    getBatchHeaderHash h = keccak256 (abiEncodeReducedBatchHeader h.batchRoot 0) ∧
      ∀ rbn : Nat, getBatchHeaderHash (BatchHeader.mk h.batchRoot rbn) = getBatchHeaderHash h :=
  ⟨rfl, fun _ => rfl⟩

/-! ## Lemmas: association lists -/

theorem alookup_aupdate_self {K V : Type} [DecidableEq K] (t : List (K × V)) (k : K)
    (f : V → V) : alookup (aupdate t k f) k = (alookup t k).map f := by
  induction t with
  | nil => rfl
  | cons p rest ih =>
    obtain ⟨k', v⟩ := p
    show alookup ((if k' = k then (k', f v) else (k', v)) :: aupdate rest k f) k =
      Option.map f (alookup ((k', v) :: rest) k)
    by_cases hp : k' = k
    · subst hp
      rw [if_pos rfl]
      simp [alookup]
    · rw [if_neg hp]
      simp [alookup, hp, ih]

theorem alookup_aset_self {K V : Type} [DecidableEq K] (t : List (K × V)) (k : K) (v : V) :
    alookup (aset t k v) k = some v := by
  induction t with
  | nil => simp [aset, alookup]
  | cons p rest ih =>
    by_cases hp : p.1 = k
    · simp only [aset]
      rw [if_pos hp]
      simp [alookup]
    · simp only [aset]
      rw [if_neg hp]
      simp [alookup, hp, ih]

theorem alookup_mem {K V : Type} [DecidableEq K] :
    ∀ {t : List (K × V)} {k : K} {v : V}, alookup t k = some v → (k, v) ∈ t := by
  intro t
  induction t with
  | nil => intro k v h; simp [alookup] at h
  | cons p rest ih =>
    intro k v h
    simp only [alookup] at h
    split at h
    · rename_i hp
      simp only [Option.some.injEq] at h
      subst h
      subst hp
      exact List.mem_cons_self _ _
    · exact List.mem_cons_of_mem _ (ih h)

/-! ## Claim C8 -/

/-- C8: `HandleBlobFailure` increments the record's NumRetries while it is
below the retry bound and otherwise marks the blob Failed (leaving
NumRetries); the stored NumRetries never decreases, and a Processing record
whose NumRetries has reached the bound transitions to Failed on the next
failure. -/
theorem c8_handle_blob_failure (t : MetadataTable) (m : BlobMetadata) (maxRetry : Nat)
    (hm : alookup t m.getBlobKey = some m) :
    (m.numRetries < maxRetry →
      alookup (handleBlobFailure t m maxRetry) m.getBlobKey =
        some { m with numRetries := m.numRetries + 1 }) ∧
    (¬ m.numRetries < maxRetry →
      alookup (handleBlobFailure t m maxRetry) m.getBlobKey =
        some { m with blobStatus := BlobStatus.failed }) ∧
    (∀ m', alookup (handleBlobFailure t m maxRetry) m.getBlobKey = some m' →
      m.numRetries ≤ m'.numRetries) ∧
    (m.numRetries = maxRetry → m.blobStatus = BlobStatus.processing →
      alookup (handleBlobFailure t m maxRetry) m.getBlobKey =
        some { m with blobStatus := BlobStatus.failed }) := by
  have hinc : alookup (incrementBlobRetryCount t m) m.getBlobKey =
      some { m with numRetries := m.numRetries + 1 } := by
    rw [incrementBlobRetryCount, incrementNumRetries, alookup_aupdate_self, hm]
    rfl
  have hfail : alookup (markBlobFailed t m.getBlobKey) m.getBlobKey =
      some { m with blobStatus := BlobStatus.failed } := by
    rw [markBlobFailed, setBlobStatus, alookup_aupdate_self, hm]
    rfl
  refine ⟨?_, ?_, ?_, ?_⟩
  · intro hlt
    rw [handleBlobFailure, if_pos hlt]
    exact hinc
  · intro hge
    rw [handleBlobFailure, if_neg hge]
    exact hfail
  · intro m' hm'
    rw [handleBlobFailure] at hm'
    split at hm'
    · rw [hinc] at hm'
      cases hm'
      simp
    · rw [hfail] at hm'
      cases hm'
      simp
  · intro heq _
    rw [handleBlobFailure, if_neg (by omega)]
    exact hfail

/-- C8 witness: a Processing record with NumRetries at the bound (2) is marked
Failed by the next `HandleBlobFailure`. -/
theorem c8_handle_blob_failure_witness :
    alookup
        (handleBlobFailure
          [(BlobKey.mk [1] [2], BlobMetadata.mk [1] [2] BlobStatus.processing 2 0 none none)]
          (BlobMetadata.mk [1] [2] BlobStatus.processing 2 0 none none) 2)
        (BlobMetadata.mk [1] [2] BlobStatus.processing 2 0 none none).getBlobKey =
      some (BlobMetadata.mk [1] [2] BlobStatus.failed 2 0 none none) :=
  (c8_handle_blob_failure _ _ 2 (by decide)).2.2.2 rfl rfl

/-! ## Lemmas: the rate limiter -/

theorem getBucketLevel_eq_clamp (l s iv d : Int) (hs : 0 ≤ s) :
    getBucketLevel l s iv d = max 0 (min s (l + iv - d)) := by
  unfold getBucketLevel
  dsimp only
  split_ifs <;> omega

theorem updateBuckets_spec (bs rt : Nat) (iv : Int) :
    ∀ (sizes : List Int) (mults : List ℚ) (levels : List Int),
      mults.length = sizes.length → levels.length = sizes.length →
      (updateBuckets bs rt iv sizes mults levels).1.length = sizes.length ∧
      (∀ i, i < sizes.length →
        (updateBuckets bs rt iv sizes mults levels).1.getD i 0 =
          getBucketLevel (levels.getD i 0) (sizes.getD i 0) iv
            (deductionOf bs rt (mults.getD i 0))) ∧
      ((updateBuckets bs rt iv sizes mults levels).2 = true ↔
        ∀ i, i < sizes.length → 0 < (updateBuckets bs rt iv sizes mults levels).1.getD i 0)
  | [], mults, levels, hm, hl => by
    have : levels = [] := List.length_eq_zero.mp hl
    subst this
    simp [updateBuckets]
  | s :: sizes, [], levels, hm, hl => by simp at hm
  | s :: sizes, m :: mults, [], hm, hl => by simp at hl
  | s :: sizes, m :: mults, l :: levels, hm, hl => by
    obtain ⟨ih1, ih2, ih3⟩ := updateBuckets_spec bs rt iv sizes mults levels
      (by simpa using hm) (by simpa using hl)
    refine ⟨?_, ?_, ?_⟩
    · simpa [updateBuckets] using ih1
    · intro i hi
      cases i with
      | zero => simp [updateBuckets]
      | succ j =>
        simp only [updateBuckets, List.getD_cons_succ]
        exact ih2 j (by simpa using hi)
    · simp only [updateBuckets, Bool.and_eq_true, decide_eq_true_eq]
      constructor
      · rintro ⟨h0, hrest⟩ i hi
        cases i with
        | zero => simpa [updateBuckets] using h0
        | succ j =>
          simp only [List.getD_cons_succ]
          exact (ih3.mp hrest) j (by simpa using hi)
      · intro hall
        refine ⟨by simpa [updateBuckets] using hall 0 (by simp), ih3.mpr ?_⟩
        intro j hj
        have := hall (j + 1) (by simpa using Nat.succ_lt_succ hj)
        simpa [updateBuckets] using this

/-- The effective bucket parameters `AllowRequest` uses: the stored entry, or
a fresh full bucket stamped `now` when the store misses. -/
def effectiveBucket (params : GlobalRateParams) (store : BucketStore) (id : List Nat)
    (now : Int) : RateBucketParams :=
  (alookup store id).getD (RateBucketParams.mk params.bucketSizes now)

/-- The claim's per-tier updated level:
`clamp(level_i + interval − 1µs·(1e6·blobSize/rate/Multipliers[i]), 0, BucketSizes[i])`. -/
def specNewLevel (params : GlobalRateParams) (bp : RateBucketParams) (blobSize rate : Nat)
    (now : Int) (i : Nat) : Int :=
  max 0 (min (params.bucketSizes.getD i 0)
    (bp.bucketLevels.getD i 0 + (now - bp.lastRequestTime) -
      deductionOf blobSize rate (params.multipliers.getD i 0)))

theorem allowRequest_eq (params : GlobalRateParams) (allowlist : List (List Nat))
    (store : BucketStore) (id : List Nat) (bs rt : Nat) (now : Int)
    (hal : isAllowlisted allowlist id = false) :
    allowRequest params allowlist store id bs rt now =
      (let bp := effectiveBucket params store id now
       let lv := updateBuckets bs rt (now - bp.lastRequestTime)
         params.bucketSizes params.multipliers bp.bucketLevels
       if lv.2 || params.countFailed then
         AllowResult.mk lv.2 (aset store id (RateBucketParams.mk lv.1 now))
           [BucketOp.getItem id, BucketOp.updateItem id]
       else AllowResult.mk lv.2 store [BucketOp.getItem id]) := by
  unfold allowRequest effectiveBucket
  rw [if_neg (by simp [hal])]
  cases alookup store id <;> rfl

/-! ## Claims C4, C9 -/

/-- C4: for a non-allowlisted request, `AllowRequest` is allowed exactly when
every updated tier level
`clamp(level_i + interval − 1µs·(1e6·blobSize/rate/Multipliers[i]), 0,
BucketSizes[i])` is strictly positive, and whenever the state is persisted
(allowed, or `CountFailed`) the stored levels are exactly those updated
levels, stamped with the request time. -/
theorem c4_allow_request (params : GlobalRateParams) (allowlist : List (List Nat))
    (store : BucketStore) (id : List Nat) (blobSize rate : Nat) (now : Int)
    (hal : isAllowlisted allowlist id = false)
    (hm : params.multipliers.length = params.bucketSizes.length)
    (hl : (effectiveBucket params store id now).bucketLevels.length =
      params.bucketSizes.length)
    (hs : ∀ s ∈ params.bucketSizes, (0 : Int) ≤ s) :
    ((allowRequest params allowlist store id blobSize rate now).allowed = true ↔
      ∀ i, i < params.bucketSizes.length →
        0 < specNewLevel params (effectiveBucket params store id now) blobSize rate now i) ∧
    ((allowRequest params allowlist store id blobSize rate now).allowed = true ∨
        params.countFailed = true →
      alookup (allowRequest params allowlist store id blobSize rate now).store id =
        some (RateBucketParams.mk
          ((List.range params.bucketSizes.length).map
            (specNewLevel params (effectiveBucket params store id now) blobSize rate now))
          now)) := by
  rw [allowRequest_eq params allowlist store id blobSize rate now hal]
  obtain ⟨hlen, hget, hiff⟩ := updateBuckets_spec blobSize rate
    (now - (effectiveBucket params store id now).lastRequestTime)
    params.bucketSizes params.multipliers (effectiveBucket params store id now).bucketLevels
    hm hl
  have hspec : ∀ i, i < params.bucketSizes.length →
      (updateBuckets blobSize rate (now - (effectiveBucket params store id now).lastRequestTime)
        params.bucketSizes params.multipliers
        (effectiveBucket params store id now).bucketLevels).1.getD i 0 =
      specNewLevel params (effectiveBucket params store id now) blobSize rate now i := by
    intro i hi
    rw [hget i hi, getBucketLevel_eq_clamp]
    · rfl
    · have : params.bucketSizes.getD i 0 ∈ params.bucketSizes := by
        rw [List.getD_eq_getElem _ _ hi]
        exact List.getElem_mem hi
      exact hs _ this
  have hlist :
      (updateBuckets blobSize rate (now - (effectiveBucket params store id now).lastRequestTime)
        params.bucketSizes params.multipliers
        (effectiveBucket params store id now).bucketLevels).1 =
      (List.range params.bucketSizes.length).map
        (specNewLevel params (effectiveBucket params store id now) blobSize rate now) := by
    apply List.ext_getElem
    · simp [hlen]
    · intro i h1 h2
      have hi : i < params.bucketSizes.length := by simpa [hlen] using h1
      have := hspec i hi
      rw [List.getD_eq_getElem _ _ h1] at this
      rw [this]
      simp
  constructor
  · dsimp only
    split
    · rename_i hcond
      rw [show (AllowResult.mk
          (updateBuckets blobSize rate
            (now - (effectiveBucket params store id now).lastRequestTime)
            params.bucketSizes params.multipliers
            (effectiveBucket params store id now).bucketLevels).2 _ _).allowed =
          (updateBuckets blobSize rate
            (now - (effectiveBucket params store id now).lastRequestTime)
            params.bucketSizes params.multipliers
            (effectiveBucket params store id now).bucketLevels).2 from rfl]
      rw [hiff]
      constructor
      · intro h i hi
        rw [← hspec i hi]
        exact h i hi
      · intro h i hi
        rw [hspec i hi]
        exact h i hi
    · rename_i hcond
      rw [show (AllowResult.mk
          (updateBuckets blobSize rate
            (now - (effectiveBucket params store id now).lastRequestTime)
            params.bucketSizes params.multipliers
            (effectiveBucket params store id now).bucketLevels).2 store _).allowed =
          (updateBuckets blobSize rate
            (now - (effectiveBucket params store id now).lastRequestTime)
            params.bucketSizes params.multipliers
            (effectiveBucket params store id now).bucketLevels).2 from rfl]
      rw [hiff]
      constructor
      · intro h i hi
        rw [← hspec i hi]
        exact h i hi
      · intro h i hi
        rw [hspec i hi]
        exact h i hi
  · intro hpersist
    dsimp only at hpersist ⊢
    have hcond : ((updateBuckets blobSize rate
        (now - (effectiveBucket params store id now).lastRequestTime)
        params.bucketSizes params.multipliers
        (effectiveBucket params store id now).bucketLevels).2
        || params.countFailed) = true := by
      rcases hpersist with h | h
      · split at h
        · rename_i hc; exact hc
        · rename_i hc
          simp only [Bool.or_eq_true]
          exact Or.inl h
      · simp [h]
    rw [if_pos hcond] at hpersist ⊢
    rw [alookup_aset_self, hlist]

/-- C4 witness: a fresh requester with one generous tier is allowed, at
concrete parameters. -/
theorem c4_allow_request_witness :
    (allowRequest (GlobalRateParams.mk [1000000000] [1] false) [] [] [120] 1 1000000
      0).allowed = true := by
  have h := c4_allow_request (GlobalRateParams.mk [1000000000] [1] false) [] [] [120]
    1 1000000 0 (by decide) (by decide) (by decide) (by decide)
  apply h.1.mpr
  intro i hi
  simp only [List.length_cons, List.length_nil] at hi
  interval_cases i
  have hd : deductionOf 1 1000000 1 = 1000 := by decide
  simp only [specNewLevel, effectiveBucket, alookup, Option.getD, List.getD, List.getElem?_cons_zero,
    Option.getD_some]
  norm_num [hd]

/-- C9: allowlist hits short-circuit `AllowRequest` to allowed with no bucket
reads or writes; otherwise the bucket is read and the updated state is
persisted via `UpdateItem` exactly when the request is allowed or
`CountFailed` is set, the store being left unchanged in the remaining case. -/
theorem c9_allow_request_frame (params : GlobalRateParams) (allowlist : List (List Nat))
    (store : BucketStore) (id : List Nat) (bs rt : Nat) (now : Int) :
    (isAllowlisted allowlist id = true →
      allowRequest params allowlist store id bs rt now = AllowResult.mk true store []) ∧
    (isAllowlisted allowlist id = false →
      (BucketOp.updateItem id ∈ (allowRequest params allowlist store id bs rt now).ops ↔
        ((allowRequest params allowlist store id bs rt now).allowed = true ∨
          params.countFailed = true)) ∧
      (BucketOp.getItem id ∈ (allowRequest params allowlist store id bs rt now).ops) ∧
      (¬((allowRequest params allowlist store id bs rt now).allowed = true ∨
          params.countFailed = true) →
        (allowRequest params allowlist store id bs rt now).store = store)) := by
  constructor
  · intro h
    unfold allowRequest
    rw [if_pos (by simp [h])]
  · intro hal
    rw [allowRequest_eq params allowlist store id bs rt now hal]
    dsimp only
    split
    · rename_i hcond
      simp only [Bool.or_eq_true] at hcond
      refine ⟨by simpa using hcond, by simp, ?_⟩
      intro hcontra
      exact absurd hcond (by simpa using hcontra)
    · rename_i hcond
      simp only [Bool.or_eq_true] at hcond
      refine ⟨by simpa using hcond, by simp, fun _ => rfl⟩

/-- C9 witness: an allowlisted requester (substring hit) is allowed with the
store untouched and no bucket operations. -/
theorem c9_allow_request_frame_witness :
    allowRequest (GlobalRateParams.mk [5] [1] true) [[120]] [(
      [121], RateBucketParams.mk [5] 0)] [120, 121] 2 3 4 =
      AllowResult.mk true [([121], RateBucketParams.mk [5] 0)] [] :=
  (c9_allow_request_frame (GlobalRateParams.mk [5] [1] true) [[120]]
    [([121], RateBucketParams.mk [5] 0)] [120, 121] 2 3 4).1 (by decide)

/-! ## Claims C7, C3 -/

/-- C7: `DisperseBlob` rejects empty and oversize data with an error (storing
nothing — the error result carries no state), and a size-admitted request is
stored and answered with status Processing and the stored BlobKey's printable
form as the request ID. -/
theorem c7_disperse_blob_admission (maxBlobSize : Nat) (mode : Bool) (ttl nowSec : Nat)
    (st : BlobStoreState) (req : DisperseBlobRequest) (requestedAt : Nat) :
    (req.data.length = 0 ∨ maxBlobSize < req.data.length →
      ∃ e, disperseBlob maxBlobSize mode ttl nowSec st req requestedAt = Except.error e) ∧
    (1 ≤ req.data.length → req.data.length ≤ maxBlobSize →
      disperseBlob maxBlobSize mode ttl nowSec st req requestedAt =
        Except.ok
          (DisperseBlobReply.mk PbBlobStatus.processing
            (storeBlob mode ttl nowSec st (getBlobFromRequest req) requestedAt).1.printable,
           (storeBlob mode ttl nowSec st (getBlobFromRequest req) requestedAt).2)) := by
  constructor
  · intro h
    unfold disperseBlob
    by_cases hbig : req.data.length > maxBlobSize
    · rw [if_pos hbig]
      exact ⟨_, rfl⟩
    · rw [if_neg hbig, if_pos (by omega)]
      exact ⟨_, rfl⟩
  · intro h1 h2
    unfold disperseBlob
    rw [if_neg (by omega), if_neg (by omega)]

/-- C7 witness: a one-byte blob under a bound of four is accepted with status
Processing. -/
theorem c7_disperse_blob_admission_witness :
    (disperseBlob 4 false 0 0 (BlobStoreState.mk [] []) (DisperseBlobRequest.mk [1] [] 0)
        9).toOption.map (fun p => p.1.result) = some PbBlobStatus.processing := by
  rw [(c7_disperse_blob_admission 4 false 0 0 (BlobStoreState.mk [] [])
    (DisperseBlobRequest.mk [1] [] 0) 9).2 (by decide) (by decide)]
  rfl

/-- C3: the claim says a rate-limited request is rejected before storage, but
`DisperseBlob` never consults the rate limiter: here the limiter's verdict for
the requester is a rejection, yet the size-admitted request is stored (one
metadata record is queued) and answered Processing. -/
theorem c3_rate_limiter_not_consulted :
    (allowRequest (GlobalRateParams.mk [1000] [1] false) [] [] [49] 1 1 0).allowed = false ∧
    ((disperseBlob 10 false 0 0 (BlobStoreState.mk [] []) (DisperseBlobRequest.mk [5] [] 0)
        0).toOption.map (fun p => p.1.result) = some PbBlobStatus.processing) ∧
    ((disperseBlob 10 false 0 0 (BlobStoreState.mk [] []) (DisperseBlobRequest.mk [5] [] 0)
        0).toOption.map (fun p => p.2.metadata.length) = some 1) := by
  refine ⟨?_, rfl, rfl⟩
  have hd : deductionOf 1 1 1 = 1000000000 := by decide
  rw [allowRequest_eq (GlobalRateParams.mk [1000] [1] false) [] [] [49] 1 1 0 rfl]
  simp [updateBuckets, effectiveBucket, alookup, hd, getBucketLevel]

/-! ## Claims C6, C10 -/

/-- The primary metadata store misses the parsed key, or returns a record
whose printable key does not match the request ID. -/
def primaryMisses (primary : MetadataTable) (k : BlobKey) (requestID : List Nat) : Prop :=
  alookup primary k = none ∨
    ∃ m0, alookup primary k = some m0 ∧ m0.getBlobKey.printable ≠ requestID

theorem getBlobStatus_fallback (primary : MetadataTable)
    (kv : List (List Nat × BlobMetadata)) (lfb : Nat) (requestID : List Nat) (k : BlobKey)
    (hid : requestID ≠ []) (hparse : parseBlobKey requestID = Except.ok k)
    (hmiss : primaryMisses primary k requestID) :
    getBlobStatus true primary kv lfb requestID = kvFallback kv lfb requestID := by
  unfold getBlobStatus
  rw [if_neg hid]
  simp only [hparse]
  rcases hmiss with hnone | ⟨m0, hm0, hne⟩
  · simp [hnone]
  · simp only [hm0]
    simp [hne]

theorem buildStatusReply_no_fault (m : BlobMetadata) (h : m.confirmationInfo.isSome = true) :
    ∀ e, buildStatusReply m ≠ Except.error e := by
  intro e
  unfold buildStatusReply
  split
  · cases hci : m.confirmationInfo with
    | none => rw [hci] at h; simp at h
    | some ci => simp
  · simp

/-- C6: in MetadataHashAsBlobKey mode, when the primary lookup misses or
mismatches, `GetBlobStatus` consults the KV: a KV record whose confirmation
block is within the finalized head is reported Finalized, and when neither
store has a record the reply is Processing. -/
theorem c6_kv_fallback_status (primary : MetadataTable)
    (kv : List (List Nat × BlobMetadata)) (lfb : Nat) (requestID : List Nat) (k : BlobKey)
    (hid : requestID ≠ []) (hparse : parseBlobKey requestID = Except.ok k)
    (hmiss : primaryMisses primary k requestID) :
    (∀ m ci, alookup kv requestID = some m → m.confirmationInfo = some ci →
      ci.confirmationBlockNumber ≤ lfb →
      getBlobStatus true primary kv lfb requestID =
        Except.ok (BlobStatusReply.mk PbBlobStatus.finalized true)) ∧
    (alookup kv requestID = none →
      getBlobStatus true primary kv lfb requestID =
        Except.ok (BlobStatusReply.mk PbBlobStatus.processing false)) := by
  rw [getBlobStatus_fallback primary kv lfb requestID k hid hparse hmiss]
  constructor
  · intro m ci hm hci hle
    unfold kvFallback getMetadataFromKv
    simp only [hm, hci]
    rw [if_pos hle]
    simp [buildStatusReply, BlobMetadata.isConfirmed, getResponseStatus, hci]
  · intro hnone
    unfold kvFallback getMetadataFromKv
    simp only [hnone]
    simp [buildStatusReply, emptyBlobMetadata, BlobMetadata.isConfirmed, getResponseStatus]

/-- C6 witness: a confirmed KV record with confirmation block 5 under a
finalized head of 10 is reported Finalized through the fallback. -/
theorem c6_kv_fallback_status_witness :
    getBlobStatus true []
        [([97, 45, 98], BlobMetadata.mk [97] [98] BlobStatus.confirmed 0 0 none
          (some (ConfirmationInfo.mk 1 0 0 5)))] 10 [97, 45, 98] =
      Except.ok (BlobStatusReply.mk PbBlobStatus.finalized true) :=
  (c6_kv_fallback_status []
      [([97, 45, 98], BlobMetadata.mk [97] [98] BlobStatus.confirmed 0 0 none
        (some (ConfirmationInfo.mk 1 0 0 5)))] 10 [97, 45, 98] (BlobKey.mk [97] [98])
      (by decide) rfl (Or.inl rfl)).1
    (BlobMetadata.mk [97] [98] BlobStatus.confirmed 0 0 none
      (some (ConfirmationInfo.mk 1 0 0 5)))
    (ConfirmationInfo.mk 1 0 0 5) (by decide) rfl (by decide)

/-- C10: every record the KV fallback deserializes carries a present
ConfirmationInfo (the batcher always publishes one — a spec-modelled producer
invariant), so the `ConfirmationInfo.ConfirmationBlockNumber` dereference in
the fallback cannot fault: under that invariant `GetBlobStatus` never returns
the nil-dereference fault on the fallback path. -/
theorem c10_kv_confirmation_present (primary : MetadataTable)
    (kv : List (List Nat × BlobMetadata)) (lfb : Nat) (requestID : List Nat) (k : BlobKey)
    (hid : requestID ≠ []) (hparse : parseBlobKey requestID = Except.ok k)
    (hmiss : primaryMisses primary k requestID)
    (hwf : ∀ p ∈ kv, p.2.confirmationInfo.isSome = true) :
    getBlobStatus true primary kv lfb requestID ≠ Except.error ServerError.nilDeref := by
  rw [getBlobStatus_fallback primary kv lfb requestID k hid hparse hmiss]
  unfold kvFallback getMetadataFromKv
  cases hkv : alookup kv requestID with
  | none =>
    simp only [hkv]
    simp [buildStatusReply, emptyBlobMetadata, BlobMetadata.isConfirmed]
  | some m =>
    have hm := hwf (requestID, m) (alookup_mem hkv)
    simp only at hm
    cases hci : m.confirmationInfo with
    | none => rw [hci] at hm; simp at hm
    | some ci =>
      simp only [hkv, hci]
      split
      · exact buildStatusReply_no_fault _ (by simp [hci]) ServerError.nilDeref
      · exact buildStatusReply_no_fault _ (by simp [hci]) ServerError.nilDeref

/-- C10 witness: a KV record with a present ConfirmationInfo (block 7, head 0)
is served through the fallback without faulting. -/
theorem c10_kv_confirmation_present_witness :
    getBlobStatus true []
        [([99, 45, 100], BlobMetadata.mk [99] [100] BlobStatus.confirmed 1 0 none
          (some (ConfirmationInfo.mk 2 1 0 7)))] 0 [99, 45, 100] ≠
      Except.error ServerError.nilDeref :=
  c10_kv_confirmation_present []
    [([99, 45, 100], BlobMetadata.mk [99] [100] BlobStatus.confirmed 1 0 none
      (some (ConfirmationInfo.mk 2 1 0 7)))] 0 [99, 45, 100] (BlobKey.mk [99] [100])
    (by decide) rfl (Or.inl rfl) (by decide)

end ZgDA
